import Mathlib

/-!
Shallow embedding of the RFI_PROJ prototype: the Express server variant with
full CRUD for assessments (GET and POST on /api/assessments, PUT on
/api/assessments/:id) backed by a whole-file JSON array, together with the
client-side table controller (keyword filter and row-action buttons).
-/

namespace RFIProj

/-- A JSON-like value as handled by the server and client scripts. -/
inductive JVal where
  | null
  | bool (b : Bool)
  | num  (n : Int)
  | str  (s : String)
deriving DecidableEq, Repr

/-- A JSON object: an association list of fields in insertion order,
mirroring a JavaScript object. -/
abbrev JObj := List (String × JVal)

/-- Field lookup, as JavaScript property access obj.k (first matching key). -/
def getField (o : JObj) (k : String) : Option JVal :=
  (o.find? (fun p => decide (p.1 = k))).map (fun p => p.2)

/-- Property assignment obj.k = v: overwrite in place when the key exists,
append otherwise (JavaScript insertion-order semantics). -/
def setField (o : JObj) (k : String) (v : JVal) : JObj :=
  if o.any (fun p => decide (p.1 = k)) then
    o.map (fun p => if p.1 = k then (k, v) else p)
  else o ++ [(k, v)]

/-- Object spread with override: spread a b models the object literal that
spreads the fields of a first and then the fields of b on top. -/
def spread (a b : JObj) : JObj :=
  b.foldl (fun acc p => setField acc p.1 p.2) a

/-- JavaScript truthiness of a value, as used by the required-field checks. -/
def JVal.truthy : JVal → Bool
  | .null   => false
  | .bool b => b
  | .num n  => decide (n ≠ 0)
  | .str s  => decide (s ≠ "")

/-- Truthiness of obj.k, where a missing field (undefined) is falsy. -/
def truthyField (o : JObj) (k : String) : Bool :=
  match getField o k with
  | none   => false
  | some v => v.truthy

/-- Value of the last field of o named k, if any; the field that wins when o
is spread over another object. -/
def lastField (o : JObj) (k : String) : Option JVal :=
  getField o.reverse k

theorem getField_cons (p : String × JVal) (o : JObj) (k : String) :
    getField (p :: o) k = if p.1 = k then some p.2 else getField o k := by
  by_cases h : p.1 = k <;> simp [getField, List.find?_cons, h]

theorem getField_append (o₁ o₂ : JObj) (k : String) :
    getField (o₁ ++ o₂) k = (getField o₁ k).or (getField o₂ k) := by
  simp only [getField, List.find?_append]
  cases o₁.find? (fun p => decide (p.1 = k)) <;> simp

theorem getField_singleton (p : String × JVal) (k : String) :
    getField [p] k = if p.1 = k then some p.2 else none := by
  simp [getField_cons, getField]

theorem getField_eq_none_of_any_eq_false {o : JObj} {k : String}
    (h : o.any (fun p => decide (p.1 = k)) = false) : getField o k = none := by
  induction o with
  | nil => rfl
  | cons p o ih =>
    simp only [List.any_cons, Bool.or_eq_false_iff] at h
    rw [getField_cons, if_neg (by simpa using h.1)]
    exact ih h.2

theorem getField_map_overwrite (o : JObj) (k : String) (v : JVal) :
    getField (o.map (fun p => if p.1 = k then (k, v) else p)) k =
      (getField o k).map (fun _ => v) := by
  induction o with
  | nil => rfl
  | cons p o ih =>
    by_cases h : p.1 = k
    · simp [h, getField_cons]
    · simp only [List.map_cons, if_neg h]
      rw [getField_cons, getField_cons, if_neg h, if_neg h, ih]

theorem getField_isSome_of_any {o : JObj} {k : String}
    (h : o.any (fun p => decide (p.1 = k)) = true) : ∃ w, getField o k = some w := by
  induction o with
  | nil => simp at h
  | cons p o ih =>
    by_cases hp : p.1 = k
    · exact ⟨p.2, by rw [getField_cons, if_pos hp]⟩
    · rw [getField_cons, if_neg hp]
      apply ih
      simpa [List.any_cons, hp] using h

theorem getField_map_overwrite_ne (o : JObj) {k k' : String} (v : JVal)
    (h : k' ≠ k) :
    getField (o.map (fun p => if p.1 = k then (k, v) else p)) k' =
      getField o k' := by
  induction o with
  | nil => rfl
  | cons p o ih =>
    by_cases hp : p.1 = k
    · simp only [List.map_cons, if_pos hp]
      rw [getField_cons, getField_cons,
        if_neg (show ¬ (k, v).1 = k' from fun e => h e.symm),
        if_neg (show ¬ p.1 = k' from fun e => h ((hp.symm.trans e).symm)), ih]
    · simp only [List.map_cons, if_neg hp]
      rw [getField_cons, getField_cons, ih]

theorem getField_setField_self (o : JObj) (k : String) (v : JVal) :
    getField (setField o k v) k = some v := by
  unfold setField
  split
  next h =>
    rw [getField_map_overwrite]
    obtain ⟨w, hw⟩ := getField_isSome_of_any h
    rw [hw]
    rfl
  next h =>
    rw [getField_append,
      getField_eq_none_of_any_eq_false (Bool.eq_false_iff.mpr h),
      getField_singleton, if_pos rfl]
    rfl

theorem getField_setField_ne (o : JObj) {k k' : String} (v : JVal)
    (h : k' ≠ k) : getField (setField o k v) k' = getField o k' := by
  unfold setField
  split
  next => exact getField_map_overwrite_ne o v h
  next =>
    rw [getField_append, getField_singleton,
      if_neg (show ¬ (k, v).1 = k' from fun e => h e.symm)]
    cases getField o k' <;> rfl

theorem lastField_cons (p : String × JVal) (o : JObj) (k : String) :
    lastField (p :: o) k =
      (lastField o k).or (if p.1 = k then some p.2 else none) := by
  unfold lastField
  rw [List.reverse_cons, getField_append, getField_singleton]

theorem getField_spread (a b : JObj) (k : String) :
    getField (spread a b) k = (lastField b k).or (getField a k) := by
  induction b generalizing a with
  | nil => simp [spread, lastField, getField]
  | cons p bs ih =>
    show getField (spread (setField a p.1 p.2) bs) k = _
    rw [ih, lastField_cons, Option.or_assoc]
    by_cases hp : p.1 = k
    · rw [if_pos hp, hp, getField_setField_self]
      cases lastField bs k <;> rfl
    · rw [if_neg hp, getField_setField_ne a p.2 (fun e => hp e.symm)]
      cases lastField bs k <;> rfl

/-- Index of the first record satisfying p, mirroring Array.prototype.findIndex
(with the not-found value -1 modelled as none). -/
def findIndex (p : JObj → Bool) : List JObj → Option Nat
  | [] => none
  | a :: rest => if p a then some 0 else (findIndex p rest).map (· + 1)

theorem findIndex_eq_none_iff (p : JObj → Bool) (l : List JObj) :
    findIndex p l = none ↔ ∀ a ∈ l, p a = false := by
  induction l with
  | nil => simp [findIndex]
  | cons a rest ih =>
    by_cases hp : p a = true
    · simp [findIndex, hp]
    · rw [findIndex, if_neg hp]
      constructor
      · intro h b hb
        rcases List.mem_cons.mp hb with rfl | hb
        · exact Bool.eq_false_iff.mpr hp
        · exact (ih.mp (Option.map_eq_none'.mp h)) b hb
      · intro h
        rw [ih.mpr (fun b hb => h b (List.mem_cons_of_mem a hb))]
        rfl

theorem findIndex_some_elem {p : JObj → Bool} {l : List JObj} {i : Nat}
    (h : findIndex p l = some i) : ∃ a, l[i]? = some a ∧ p a = true := by
  induction l generalizing i with
  | nil => exact Option.noConfusion h
  | cons a rest ih =>
    by_cases hp : p a = true
    · rw [findIndex, if_pos hp] at h
      cases h
      exact ⟨a, List.getElem?_cons_zero, hp⟩
    · rw [findIndex, if_neg hp] at h
      cases hfi : findIndex p rest with
      | none => rw [hfi] at h; exact Option.noConfusion h
      | some j =>
        rw [hfi] at h
        have hij : j + 1 = i := Option.some.inj h
        obtain ⟨b, hb, hpb⟩ := ih hfi
        refine ⟨b, ?_, hpb⟩
        rw [← hij, List.getElem?_cons_succ]
        exact hb

theorem findIndex_some_lt {p : JObj → Bool} {l : List JObj} {i : Nat}
    (h : findIndex p l = some i) : i < l.length := by
  obtain ⟨a, ha, _⟩ := findIndex_some_elem h
  exact List.getElem?_eq_some_iff.mp ha |>.1

theorem findIndex_set_self {p : JObj → Bool} {l : List JObj} {i : Nat}
    (h : findIndex p l = some i) {b : JObj} (hb : p b = true) :
    findIndex p (l.set i b) = some i := by
  induction l generalizing i with
  | nil => exact Option.noConfusion h
  | cons a rest ih =>
    by_cases hp : p a = true
    · rw [findIndex, if_pos hp] at h
      cases h
      show findIndex p (b :: rest) = some 0
      rw [findIndex, if_pos hb]
    · rw [findIndex, if_neg hp] at h
      cases hfi : findIndex p rest with
      | none => rw [hfi] at h; exact Option.noConfusion h
      | some j =>
        rw [hfi] at h
        have hij : j + 1 = i := Option.some.inj h
        rw [← hij]
        show findIndex p (a :: rest.set j b) = some (j + 1)
        rw [findIndex, if_neg hp, ih hfi]
        rfl

/-!
The HTTP layer of the full-CRUD server variant. The JSON file on disk is
modelled as an optional array of records (none when the file is absent);
the non-deterministic environment inputs Date.now().toString() and the
YYYY-MM-DD part of new Date().toISOString() are passed as parameters.
-/

/-- Outcome of one API request: the HTTP status, the JSON object sent back,
and the state of the backing file afterwards. -/
structure ApiResponse where
  status : Nat
  body   : JObj
  file   : Option (List JObj)
deriving DecidableEq, Repr

/-- Body of readJsonFile: the parsed array, or an empty array when the file
does not exist (the ENOENT branch). -/
def readJsonFile (file : Option (List JObj)) : List JObj :=
  file.getD []

/-- Handler of GET /api/assessments in the full-CRUD server variant:
res.json always answers with status 200. -/
def getAssessmentsHandler (file : Option (List JObj)) : Nat × List JObj :=
  (200, readJsonFile file)

/-- Error body sent when a required field is missing. -/
def requiredFieldsError : JObj :=
  [("error", JVal.str "Process Name and Status are required.")]

/-- Validation used by both POST and PUT:
the test !body.processName || !body.status. -/
def missingRequired (body : JObj) : Bool :=
  !truthyField body "processName" || !truthyField body "status"

/-- Handler of POST /api/assessments: validates the two required fields,
assigns id, createdDate and lastModified on the request body, appends it to
the array read from the file and rewrites the whole file. -/
def postAssessmentsHandler (nowId today : String) (file : Option (List JObj))
    (reqBody : JObj) : ApiResponse :=
  if missingRequired reqBody then
    ⟨400, requiredFieldsError, file⟩
  else
    let assessments := readJsonFile file
    let newAssessment :=
      setField (setField (setField reqBody "id" (JVal.str nowId))
        "createdDate" (JVal.str today)) "lastModified" (JVal.str today)
    ⟨201, newAssessment, some (assessments ++ [newAssessment])⟩

/-- Predicate of the findIndex call in the PUT handler:
a.id === assessmentId (strict equality against the path parameter string). -/
def idMatches (assessmentId : String) (a : JObj) : Bool :=
  decide (getField a "id" = some (JVal.str assessmentId))

/-- Merged record built by the PUT handler: the object literal spreading the
existing record, then the request body, then pinning id to the path parameter
and refreshing lastModified. -/
def mergeForPut (existing reqBody : JObj) (assessmentId today : String) :
    JObj :=
  setField (setField (spread existing reqBody) "id" (JVal.str assessmentId))
    "lastModified" (JVal.str today)

/-- Handler of PUT /api/assessments/:id: validates the required fields,
locates the record by id (404 when absent), replaces it in place by the
merged record and rewrites the whole file. The getD fallback models the
direct index access assessments[index], which findIndex guarantees is in
bounds. -/
def putAssessmentHandler (today : String) (file : Option (List JObj))
    (assessmentId : String) (reqBody : JObj) : ApiResponse :=
  if missingRequired reqBody then
    ⟨400, requiredFieldsError, file⟩
  else
    let assessments := readJsonFile file
    match findIndex (idMatches assessmentId) assessments with
    | none => ⟨404, [("error", JVal.str "Assessment not found")], file⟩
    | some index =>
        let existing := (assessments[index]?).getD []
        let merged := mergeForPut existing reqBody assessmentId today
        ⟨200, merged, some (assessments.set index merged)⟩

/-!
Client-side table controller from public/assets/js/app.js.
-/

/-- String conversion (x ?? "").toString() applied to a possibly missing
field value: null and undefined become the empty string. -/
def jsDisplay : Option JVal → String
  | none                => ""
  | some JVal.null      => ""
  | some (JVal.bool b)  => if b then "true" else "false"
  | some (JVal.num n)   => toString n
  | some (JVal.str s)   => s

/-- Character-level lowercasing, modelling String.prototype.toLowerCase. -/
def lowerChars (s : String) : String :=
  String.mk (s.data.map Char.toLower)

/-- Character-level trimming of leading and trailing whitespace, modelling
String.prototype.trim. -/
def trimChars (s : String) : String :=
  String.mk
    (((s.data.dropWhile Char.isWhitespace).reverse.dropWhile
      Char.isWhitespace).reverse)

/-- Body of normalize: (s ?? "").toString().toLowerCase().trim(). -/
def normalize (v : Option JVal) : String :=
  trimChars (lowerChars (jsDisplay v))

/-- Character-level test that the second list begins the first. -/
def leadsChars : List Char → List Char → Bool
  | _, [] => true
  | [], _ :: _ => false
  | c :: cs, d :: ds => decide (c = d) && leadsChars cs ds

/-- Character-level substring test used to model String.prototype.includes. -/
def hasSubChars (pat : List Char) : List Char → Bool
  | [] => leadsChars [] pat
  | c :: rest => leadsChars (c :: rest) pat || hasSubChars pat rest

/-- Model of haystack.includes(k). -/
def strIncludes (s pat : String) : Bool :=
  hasSubChars pat.toList s.toList

/-- Body of matchesKeyword: normalize the keyword, accept everything when it
is empty, otherwise test it against the normalized processName, content and
location fields joined with a vertical-bar separator. -/
def matchesKeyword (a : JObj) (keyword : String) : Bool :=
  let k := normalize (some (JVal.str keyword))
  if k = "" then true
  else
    let haystack := String.intercalate " | "
      ([getField a "processName", getField a "content",
        getField a "location"].map normalize)
    strIncludes haystack k

/-- One action button of a rendered table row. -/
structure RowButton where
  action   : String
  disabled : Bool
deriving DecidableEq, Repr

/-- Action buttons rendered for one record by renderTable: View always
enabled, Edit disabled exactly when status is Approved, Submit disabled
exactly when status is not Draft. -/
def renderRowButtons (a : JObj) : List RowButton :=
  [ ⟨"view", false⟩,
    ⟨"edit", decide (getField a "status" = some (JVal.str "Approved"))⟩,
    ⟨"submit", !(decide (getField a "status" = some (JVal.str "Draft")))⟩ ]

theorem leadsChars_iff (s pat : List Char) :
    leadsChars s pat = true ↔ ∃ r, s = pat ++ r := by
  induction pat generalizing s with
  | nil => exact ⟨fun _ => ⟨s, rfl⟩, fun _ => by cases s <;> rfl⟩
  | cons d ds ih =>
    cases s with
    | nil =>
      simp only [leadsChars, List.cons_append]
      constructor
      · intro h; exact Bool.noConfusion h
      · rintro ⟨r, hr⟩; exact List.noConfusion hr
    | cons c cs =>
      simp only [leadsChars, Bool.and_eq_true, decide_eq_true_eq, ih,
        List.cons_append]
      constructor
      · rintro ⟨rfl, r, rfl⟩; exact ⟨r, rfl⟩
      · rintro ⟨r, hr⟩
        obtain ⟨h1, h2⟩ := List.cons.inj hr
        exact ⟨h1, r, h2⟩

theorem hasSubChars_iff (pat s : List Char) :
    hasSubChars pat s = true ↔ ∃ l r, s = l ++ pat ++ r := by
  induction s with
  | nil =>
    simp only [hasSubChars, leadsChars_iff]
    constructor
    · rintro ⟨r, hr⟩; exact ⟨[], r, hr⟩
    · rintro ⟨l, r, hr⟩
      cases l with
      | nil => exact ⟨r, hr⟩
      | cons x xs => exact List.noConfusion hr
  | cons c rest ih =>
    simp only [hasSubChars, Bool.or_eq_true, leadsChars_iff, ih]
    constructor
    · rintro (⟨r, hr⟩ | ⟨l, r, hr⟩)
      · exact ⟨[], r, by simp [hr]⟩
      · exact ⟨c :: l, r, by simp [hr]⟩
    · rintro ⟨l, r, hr⟩
      cases l with
      | nil => exact Or.inl ⟨r, by simpa using hr⟩
      | cons x xs =>
        obtain ⟨rfl, h2⟩ := List.cons.inj hr
        exact Or.inr ⟨xs, r, h2⟩

theorem strIncludes_iff (s pat : String) :
    strIncludes s pat = true ↔ ∃ l r, s.toList = l ++ pat.toList ++ r := by
  exact hasSubChars_iff pat.toList s.toList

/-!
Helper lemmas about the handlers.
-/

theorem truthyField_of_str {o : JObj} {k s : String}
    (h : getField o k = some (JVal.str s)) (hs : s ≠ "") :
    truthyField o k = true := by
  unfold truthyField
  rw [h]
  exact decide_eq_true hs

theorem missingRequired_eq_false {body : JObj}
    (hp : truthyField body "processName" = true)
    (hs : truthyField body "status" = true) :
    missingRequired body = false := by
  rw [missingRequired, hp, hs]
  rfl

theorem post_of_valid {nowId today : String} {file : Option (List JObj)}
    {body : JObj} (h : missingRequired body = false) :
    postAssessmentsHandler nowId today file body =
      ⟨201,
        setField (setField (setField body "id" (JVal.str nowId))
          "createdDate" (JVal.str today)) "lastModified" (JVal.str today),
        some (readJsonFile file ++
          [setField (setField (setField body "id" (JVal.str nowId))
            "createdDate" (JVal.str today)) "lastModified" (JVal.str today)])⟩ := by
  rw [postAssessmentsHandler, if_neg (by simp [h])]

theorem post_status_201_valid {nowId today : String}
    {file : Option (List JObj)} {body : JObj}
    (h : (postAssessmentsHandler nowId today file body).status = 201) :
    missingRequired body = false := by
  by_cases hmr : missingRequired body = true
  · rw [postAssessmentsHandler, if_pos hmr] at h
    simp at h
  · exact Bool.eq_false_iff.mpr hmr

theorem put_success_shape {today : String} {file : Option (List JObj)}
    {pathId : String} {body : JObj}
    (h : (putAssessmentHandler today file pathId body).status = 200) :
    missingRequired body = false ∧
    ∃ i a, findIndex (idMatches pathId) (readJsonFile file) = some i ∧
      (readJsonFile file)[i]? = some a ∧
      idMatches pathId a = true ∧
      putAssessmentHandler today file pathId body =
        ⟨200, mergeForPut a body pathId today,
          some ((readJsonFile file).set i (mergeForPut a body pathId today))⟩ := by
  by_cases hmr : missingRequired body = true
  · rw [putAssessmentHandler, if_pos hmr] at h
    simp at h
  · have hmr' : missingRequired body = false := Bool.eq_false_iff.mpr hmr
    refine ⟨hmr', ?_⟩
    cases hfi : findIndex (idMatches pathId) (readJsonFile file) with
    | none =>
      rw [putAssessmentHandler, if_neg (by simp [hmr'])] at h
      simp only [hfi] at h
      simp at h
    | some i =>
      obtain ⟨a, ha, hpa⟩ := findIndex_some_elem hfi
      refine ⟨i, a, rfl, ha, hpa, ?_⟩
      simp [putAssessmentHandler, hmr', hfi, ha]

theorem readJsonFile_some (l : List JObj) : readJsonFile (some l) = l := rfl

theorem getField_mergeForPut_id (e b : JObj) (pid td : String) :
    getField (mergeForPut e b pid td) "id" = some (JVal.str pid) := by
  unfold mergeForPut
  rw [getField_setField_ne _ _ (by decide), getField_setField_self]

theorem getField_mergeForPut_lastModified (e b : JObj) (pid td : String) :
    getField (mergeForPut e b pid td) "lastModified" = some (JVal.str td) := by
  unfold mergeForPut
  rw [getField_setField_self]

theorem getField_mergeForPut_other (e b : JObj) (pid td : String)
    {k : String} (h1 : k ≠ "id") (h2 : k ≠ "lastModified") :
    getField (mergeForPut e b pid td) k =
      (lastField b k).or (getField e k) := by
  unfold mergeForPut
  rw [getField_setField_ne _ _ h2, getField_setField_ne _ _ h1,
    getField_spread]

/-!
The claims.
-/

/-- C1: for every request body whose processName and status fields are
non-empty strings, POST /api/assessments answers 201 with the stored record;
that record carries the assigned id and is present in the array returned by a
subsequent GET /api/assessments. -/
theorem post_then_get_contains_record (nowId today : String)
    (file : Option (List JObj)) (body : JObj) (p s : String)
    (hp : getField body "processName" = some (JVal.str p)) (hpne : p ≠ "")
    (hs : getField body "status" = some (JVal.str s)) (hsne : s ≠ "") :
    (postAssessmentsHandler nowId today file body).status = 201 ∧
    getField (postAssessmentsHandler nowId today file body).body "id" =
      some (JVal.str nowId) ∧
    (getAssessmentsHandler
      (postAssessmentsHandler nowId today file body).file).1 = 200 ∧
    (postAssessmentsHandler nowId today file body).body ∈
      (getAssessmentsHandler
        (postAssessmentsHandler nowId today file body).file).2 := by
  have hmr : missingRequired body = false :=
    missingRequired_eq_false (truthyField_of_str hp hpne)
      (truthyField_of_str hs hsne)
  rw [post_of_valid hmr]
  refine ⟨rfl, ?_, rfl, ?_⟩
  · rw [getField_setField_ne _ _ (by decide),
      getField_setField_ne _ _ (by decide), getField_setField_self]
  · exact List.mem_append_right _ (List.mem_singleton.mpr rfl)

/-- C3: a POST body whose processName is missing or the empty string, or
whose status is missing or the empty string, is rejected with 400 and the
backing file is left exactly as it was. -/
theorem post_missing_required_rejected (nowId today : String)
    (file : Option (List JObj)) (body : JObj)
    (h : (getField body "processName" = none ∨
          getField body "processName" = some (JVal.str "")) ∨
         (getField body "status" = none ∨
          getField body "status" = some (JVal.str ""))) :
    (postAssessmentsHandler nowId today file body).status = 400 ∧
    (postAssessmentsHandler nowId today file body).file = file := by
  have hmr : missingRequired body = true := by
    rcases h with h | h
    · have : truthyField body "processName" = false := by
        rcases h with h | h <;> simp [truthyField, h, JVal.truthy]
      simp [missingRequired, this]
    · have : truthyField body "status" = false := by
        rcases h with h | h <;> simp [truthyField, h, JVal.truthy]
      simp [missingRequired, this]
  rw [postAssessmentsHandler, if_pos hmr]
  exact ⟨rfl, rfl⟩

/-- C4: when no stored record has an id equal to the path parameter, a PUT
with the two required fields present answers 404 and the backing file is left
exactly as it was. -/
theorem put_unknown_id_not_found (today : String)
    (file : Option (List JObj)) (pathId : String) (body : JObj)
    (hp : truthyField body "processName" = true)
    (hs : truthyField body "status" = true)
    (h : ∀ a ∈ readJsonFile file,
      getField a "id" ≠ some (JVal.str pathId)) :
    (putAssessmentHandler today file pathId body).status = 404 ∧
    (putAssessmentHandler today file pathId body).file = file := by
  have hmr : missingRequired body = false := missingRequired_eq_false hp hs
  have hfi : findIndex (idMatches pathId) (readJsonFile file) = none := by
    rw [findIndex_eq_none_iff]
    intro a ha
    exact decide_eq_false (h a ha)
  simp [putAssessmentHandler, hmr, hfi]

/-- C5: when the backing assessments.json file does not exist, the GET
/api/assessments handler of the full-CRUD server variant answers 200 with the
empty array rather than an error status. -/
theorem get_assessments_missing_file_ok :
    getAssessmentsHandler none = (200, ([] : List JObj)) := rfl

/-- C2: evaluation of the PUT handler at a failing input. The handler comment
announces that the original creation date is preserved, but the spread lets a
createdDate supplied in the request body overwrite the stored one: updating
record id 1 (createdDate 2020-01-01) with a body carrying createdDate
2099-12-31 succeeds and stores the client-supplied date. -/
theorem put_stores_client_createdDate :
    (putAssessmentHandler "2026-10-12"
      (some [[("id", JVal.str "1"), ("processName", JVal.str "Old"),
              ("status", JVal.str "Draft"),
              ("createdDate", JVal.str "2020-01-01"),
              ("lastModified", JVal.str "2020-01-01")]])
      "1"
      [("processName", JVal.str "Old"), ("status", JVal.str "Draft"),
       ("createdDate", JVal.str "2099-12-31")]).status = 200 ∧
    getField (putAssessmentHandler "2026-10-12"
      (some [[("id", JVal.str "1"), ("processName", JVal.str "Old"),
              ("status", JVal.str "Draft"),
              ("createdDate", JVal.str "2020-01-01"),
              ("lastModified", JVal.str "2020-01-01")]])
      "1"
      [("processName", JVal.str "Old"), ("status", JVal.str "Draft"),
       ("createdDate", JVal.str "2099-12-31")]).body "createdDate" =
      some (JVal.str "2099-12-31") := by
  exact ⟨rfl, rfl⟩

/-- C9: frame preservation of the two mutations. A successful POST rewrites
the file to exactly the old array with the new record appended, so every
pre-existing record stays present, unchanged and in order; a successful PUT
rewrites the file to an array of the same length in which every position
holding a record whose id differs from the path parameter is unchanged. -/
theorem mutations_frame_preservation (nowId today : String)
    (file : Option (List JObj)) (body : JObj) (pathId : String) :
    ((postAssessmentsHandler nowId today file body).status = 201 →
      (postAssessmentsHandler nowId today file body).file =
        some (readJsonFile file ++
          [(postAssessmentsHandler nowId today file body).body])) ∧
    ((putAssessmentHandler today file pathId body).status = 200 →
      ∃ l, (putAssessmentHandler today file pathId body).file = some l ∧
        l.length = (readJsonFile file).length ∧
        ∀ (j : Nat) (rec : JObj), (readJsonFile file)[j]? = some rec →
          getField rec "id" ≠ some (JVal.str pathId) →
          l[j]? = some rec) := by
  constructor
  · intro h
    rw [post_of_valid (post_status_201_valid h)]
  · intro h
    obtain ⟨hmr, i, a, hfi, ha, hpa, heq⟩ := put_success_shape h
    refine ⟨(readJsonFile file).set i (mergeForPut a body pathId today),
      by rw [heq], List.length_set _ _ _, ?_⟩
    intro j rec hj hne
    have hji : i ≠ j := by
      intro e
      rw [← e, ha] at hj
      cases hj
      exact hne (decide_eq_true_eq.mp hpa)
    rw [List.getElem?_set_ne hji]
    exact hj

/-- C10: the POST handler discards any id, createdDate or lastModified
supplied by the client: whenever creation succeeds, the returned record
carries the server-assigned timestamp id and the server-assigned dates, and
that exact record is the one appended at the end of the stored array. -/
theorem post_server_assigns_identity_fields (nowId today : String)
    (file : Option (List JObj)) (body : JObj)
    (h : (postAssessmentsHandler nowId today file body).status = 201) :
    getField (postAssessmentsHandler nowId today file body).body "id" =
      some (JVal.str nowId) ∧
    getField (postAssessmentsHandler nowId today file body).body
      "createdDate" = some (JVal.str today) ∧
    getField (postAssessmentsHandler nowId today file body).body
      "lastModified" = some (JVal.str today) ∧
    ∃ l, (postAssessmentsHandler nowId today file body).file = some l ∧
      l.getLast? = some (postAssessmentsHandler nowId today file body).body := by
  rw [post_of_valid (post_status_201_valid h)]
  refine ⟨?_, ?_, ?_, ?_⟩
  · rw [getField_setField_ne _ _ (by decide),
      getField_setField_ne _ _ (by decide), getField_setField_self]
  · rw [getField_setField_ne _ _ (by decide), getField_setField_self]
  · rw [getField_setField_self]
  · exact ⟨_, rfl, List.getLast?_concat _⟩

/-- C6: when a PUT succeeds, repeating the identical PUT immediately
afterwards succeeds again and stores a record equal to the first stored
record on every field other than lastModified, which is refreshed to the date
of the second application; both stored records are the response bodies and
are present in the rewritten file. -/
theorem put_idempotent_modulo_lastModified (today1 today2 : String)
    (file : Option (List JObj)) (pathId : String) (body : JObj)
    (h : (putAssessmentHandler today1 file pathId body).status = 200) :
    (putAssessmentHandler today2
      (putAssessmentHandler today1 file pathId body).file pathId body).status
      = 200 ∧
    (∀ k : String, k ≠ "lastModified" →
      getField (putAssessmentHandler today2
        (putAssessmentHandler today1 file pathId body).file pathId body).body
          k =
        getField (putAssessmentHandler today1 file pathId body).body k) ∧
    getField (putAssessmentHandler today2
      (putAssessmentHandler today1 file pathId body).file pathId body).body
      "lastModified" = some (JVal.str today2) ∧
    (∃ l1, (putAssessmentHandler today1 file pathId body).file = some l1 ∧
      (putAssessmentHandler today1 file pathId body).body ∈ l1) ∧
    (∃ l2, (putAssessmentHandler today2
        (putAssessmentHandler today1 file pathId body).file pathId
        body).file = some l2 ∧
      (putAssessmentHandler today2
        (putAssessmentHandler today1 file pathId body).file pathId
        body).body ∈ l2) := by
  obtain ⟨hmr, i, a, hfi, ha, hpa, heq⟩ := put_success_shape h
  have hi : i < (readJsonFile file).length := findIndex_some_lt hfi
  have hp1 : idMatches pathId
      (mergeForPut a body pathId today1) = true := by
    unfold idMatches
    rw [getField_mergeForPut_id]
    exact decide_eq_true rfl
  have hfi2 : findIndex (idMatches pathId)
      ((readJsonFile file).set i (mergeForPut a body pathId today1)) =
      some i := findIndex_set_self hfi hp1
  have ha2 : ((readJsonFile file).set i
      (mergeForPut a body pathId today1))[i]? =
      some (mergeForPut a body pathId today1) :=
    List.getElem?_set_self hi
  have heq2 : putAssessmentHandler today2
      (some ((readJsonFile file).set i (mergeForPut a body pathId today1)))
      pathId body =
      ⟨200, mergeForPut (mergeForPut a body pathId today1) body pathId today2,
        some (((readJsonFile file).set i
          (mergeForPut a body pathId today1)).set i
          (mergeForPut (mergeForPut a body pathId today1) body pathId
            today2))⟩ := by
    simp [putAssessmentHandler, readJsonFile_some, hmr, hfi2, ha2]
  rw [heq, heq2]
  refine ⟨rfl, ?_, getField_mergeForPut_lastModified _ _ _ _, ?_, ?_⟩
  · intro k hk
    by_cases hid : k = "id"
    · subst hid
      rw [getField_mergeForPut_id, getField_mergeForPut_id]
    · have hw : getField (mergeForPut a body pathId today1) k =
          (lastField body k).or (getField a k) :=
        getField_mergeForPut_other _ _ _ _ hid hk
      rw [getField_mergeForPut_other _ _ _ _ hid hk]
      cases hl : lastField body k with
      | none => simp
      | some v => simp [hw, hl]
  · exact ⟨_, rfl, List.mem_set _ _ hi _⟩
  · exact ⟨_, rfl, List.mem_set _ _ (by simpa using hi) _⟩

/-!
Definitions for claim C7 about the client filter. The first predicate
transcribes the claim as stated: the lowercased keyword is a substring of the
lowercased plain concatenation of the three fields, and an empty keyword
keeps every row. The second transcribes the amended reading: the
lowercased-and-trimmed keyword is a substring of the lowercased-and-trimmed
field texts joined with a vertical-bar separator, and a keyword that is empty
after trimming keeps every row.
-/

/-- Claim-side predicate, from the words of the claim. -/
def concatClaimKeeps (a : JObj) (keyword : String) : Prop :=
  keyword = "" ∨
  ∃ l r, (lowerChars (jsDisplay (getField a "processName") ++
    jsDisplay (getField a "content") ++
    jsDisplay (getField a "location"))).toList =
      l ++ (lowerChars keyword).toList ++ r

/-- Spec-side normalization for the amended claim: lowercase, then trim. -/
def specNorm (s : String) : String := trimChars (lowerChars s)

/-- Spec-side text of a field for the amended claim: the text of the value,
empty when the field is missing or null. -/
def specFieldText (a : JObj) (k : String) : String :=
  match getField a k with
  | some (JVal.str s)  => s
  | some (JVal.num n)  => toString n
  | some (JVal.bool b) => if b then "true" else "false"
  | _ => ""

/-- Spec-side search text for the amended claim: the three normalized fields
joined with a vertical-bar separator. -/
def specHaystack (a : JObj) : String :=
  specNorm (specFieldText a "processName") ++ " | " ++
  specNorm (specFieldText a "content") ++ " | " ++
  specNorm (specFieldText a "location")

/-- Amended predicate: which rows the filter keeps. -/
def specKeepsRow (a : JObj) (keyword : String) : Prop :=
  specNorm keyword = "" ∨
  ∃ l r, (specHaystack a).toList = l ++ (specNorm keyword).toList ++ r

theorem normalize_getField_eq (a : JObj) (k : String) :
    normalize (getField a k) = specNorm (specFieldText a k) := by
  unfold normalize specNorm specFieldText jsDisplay
  cases h : getField a k with
  | none => rfl
  | some v => cases v <;> rfl

theorem matchesKeyword_haystack (a : JObj) :
    String.intercalate " | "
      ([getField a "processName", getField a "content",
        getField a "location"].map normalize) = specHaystack a := by
  show String.intercalate " | "
      [normalize (getField a "processName"), normalize (getField a "content"),
        normalize (getField a "location")] = _
  rw [normalize_getField_eq, normalize_getField_eq, normalize_getField_eq]
  unfold specHaystack
  simp [String.intercalate, String.intercalate.go, String.append_assoc]

theorem normalize_str (s : String) :
    normalize (some (JVal.str s)) = specNorm s := rfl

/-- Row used in the counterexample for C7. -/
def splitRow : JObj :=
  [("processName", JVal.str "a"), ("content", JVal.str "b"),
   ("location", JVal.str "")]

/-- C7 counterexample: the filter is not a substring test on the plain
concatenation of the fields. On the row with processName a, content b and
empty location, the keyword ab is a substring of the lowercased
concatenation, so the claim as stated keeps the row, but matchesKeyword
rejects it because the separator stands between the fields. -/
theorem filter_claim_counterexample :
    concatClaimKeeps splitRow "ab" ∧
    matchesKeyword splitRow "ab" = false := by
  constructor
  · exact Or.inr ⟨[], [], by decide⟩
  · decide

/-- First row of the concrete two-row scenario in C7. -/
def calgaryRow1 : JObj :=
  [("processName", JVal.str "Alpha"), ("content", JVal.str "x"),
   ("location", JVal.str "Calgary")]

/-- Second row of the concrete two-row scenario in C7. -/
def calgaryRow2 : JObj :=
  [("processName", JVal.str "Beta"), ("content", JVal.str "y"),
   ("location", JVal.str "Red Deer")]

/-- C7 (amended): the client filter keeps exactly the rows whose normalized
(lowercased and trimmed) processName, content and location texts, joined with
a vertical-bar separator, contain the normalized keyword as a substring; a
keyword that normalizes to the empty string keeps every row. In particular,
on the two concrete rows of the claim, the keyword calgary keeps exactly the
first row and the empty keyword keeps both. -/
theorem filter_matches_normalized_joined (rows : List JObj)
    (keyword : String) (a : JObj) :
    (matchesKeyword a keyword = true ↔ specKeepsRow a keyword) ∧
    (specNorm keyword = "" →
      rows.filter (fun x => matchesKeyword x keyword) = rows) ∧
    [calgaryRow1, calgaryRow2].filter
      (fun x => matchesKeyword x "calgary") = [calgaryRow1] ∧
    [calgaryRow1, calgaryRow2].filter
      (fun x => matchesKeyword x "") = [calgaryRow1, calgaryRow2] := by
  have hmk : ∀ (b : JObj) (kw : String), matchesKeyword b kw =
      (if specNorm kw = "" then true
        else strIncludes (specHaystack b) (specNorm kw)) := by
    intro b kw
    unfold matchesKeyword
    rw [normalize_str, matchesKeyword_haystack]
  refine ⟨?_, ?_, by decide, by decide⟩
  · rw [hmk]
    unfold specKeepsRow
    by_cases hk : specNorm keyword = ""
    · simp [hk]
    · rw [if_neg hk, strIncludes_iff]
      constructor
      · exact fun h => Or.inr h
      · rintro (h | h)
        · exact absurd h hk
        · exact h
  · intro hk
    rw [List.filter_eq_self]
    intro b _
    rw [hmk, if_pos hk]

/-- C8: in every rendered row the Edit button is disabled exactly when the
record status is Approved and the Submit button is enabled exactly when the
record status is Draft; both buttons exist in every row, and the whole action
cell depends on no field other than status. -/
theorem row_buttons_status_enablement (a b : JObj) :
    (∀ btn ∈ renderRowButtons a, btn.action = "edit" →
      (btn.disabled = true ↔
        getField a "status" = some (JVal.str "Approved"))) ∧
    (∀ btn ∈ renderRowButtons a, btn.action = "submit" →
      (btn.disabled = false ↔
        getField a "status" = some (JVal.str "Draft"))) ∧
    (∃ btn ∈ renderRowButtons a, btn.action = "edit") ∧
    (∃ btn ∈ renderRowButtons a, btn.action = "submit") ∧
    (getField a "status" = getField b "status" →
      renderRowButtons a = renderRowButtons b) := by
  refine ⟨?_, ?_, ?_, ?_, ?_⟩
  · intro btn hbtn hact
    simp only [renderRowButtons, List.mem_cons, List.not_mem_nil,
      or_false] at hbtn
    rcases hbtn with rfl | rfl | rfl
    · exact absurd hact (by simp)
    · simp
    · exact absurd hact (by simp)
  · intro btn hbtn hact
    simp only [renderRowButtons, List.mem_cons, List.not_mem_nil,
      or_false] at hbtn
    rcases hbtn with rfl | rfl | rfl
    · exact absurd hact (by simp)
    · exact absurd hact (by simp)
    · simp
  · exact ⟨_, List.mem_cons_of_mem _ (List.mem_cons_self _ _), rfl⟩
  · exact ⟨_, List.mem_cons_of_mem _ (List.mem_cons_of_mem _
      (List.mem_cons_self _ _)), rfl⟩
  · intro h
    unfold renderRowButtons
    rw [h]

/-!
Concrete inputs and witnesses.
-/

/-- Sample stored collection holding one Draft record with id 1. -/
def sampleStored : List JObj :=
  [[("id", JVal.str "1"), ("processName", JVal.str "Alpha"),
    ("status", JVal.str "Draft"), ("createdDate", JVal.str "2026-01-01"),
    ("lastModified", JVal.str "2026-01-01")]]

/-- Sample valid request body. -/
def sampleBody : JObj :=
  [("processName", JVal.str "Alpha"), ("status", JVal.str "In Review")]

/-- Witness for C1 at a concrete creation payload. -/
theorem post_then_get_contains_record_witness :
    (postAssessmentsHandler "1739999999999" "2026-10-12" (some [])
      [("processName", JVal.str "Payroll Export"),
       ("status", JVal.str "Draft")]).status = 201 ∧
    getField (postAssessmentsHandler "1739999999999" "2026-10-12" (some [])
      [("processName", JVal.str "Payroll Export"),
       ("status", JVal.str "Draft")]).body "id" =
      some (JVal.str "1739999999999") ∧
    (getAssessmentsHandler (postAssessmentsHandler "1739999999999"
      "2026-10-12" (some [])
      [("processName", JVal.str "Payroll Export"),
       ("status", JVal.str "Draft")]).file).1 = 200 ∧
    (postAssessmentsHandler "1739999999999" "2026-10-12" (some [])
      [("processName", JVal.str "Payroll Export"),
       ("status", JVal.str "Draft")]).body ∈
      (getAssessmentsHandler (postAssessmentsHandler "1739999999999"
        "2026-10-12" (some [])
        [("processName", JVal.str "Payroll Export"),
         ("status", JVal.str "Draft")]).file).2 :=
  post_then_get_contains_record "1739999999999" "2026-10-12" (some [])
    [("processName", JVal.str "Payroll Export"),
     ("status", JVal.str "Draft")] "Payroll Export" "Draft"
    (by decide) (by decide) (by decide) (by decide)

/-- Witness for C3 at a payload with no processName. -/
theorem post_missing_required_rejected_witness :
    (postAssessmentsHandler "1739999999999" "2026-10-12" (some sampleStored)
      [("status", JVal.str "Draft")]).status = 400 ∧
    (postAssessmentsHandler "1739999999999" "2026-10-12" (some sampleStored)
      [("status", JVal.str "Draft")]).file = some sampleStored :=
  post_missing_required_rejected "1739999999999" "2026-10-12"
    (some sampleStored) [("status", JVal.str "Draft")]
    (Or.inl (Or.inl (by decide)))

/-- Witness for C4 at an id that is not stored. -/
theorem put_unknown_id_not_found_witness :
    (putAssessmentHandler "2026-10-12" (some sampleStored) "9"
      sampleBody).status = 404 ∧
    (putAssessmentHandler "2026-10-12" (some sampleStored) "9"
      sampleBody).file = some sampleStored :=
  put_unknown_id_not_found "2026-10-12" (some sampleStored) "9" sampleBody
    (by decide) (by decide) (by decide)

/-- Witness for C6: repeating the same PUT on the stored Draft record leaves
processName, status, createdDate and id unchanged and refreshes only the
modification date. -/
theorem put_idempotent_modulo_lastModified_witness :
    (putAssessmentHandler "2026-02-02"
      (putAssessmentHandler "2026-02-01" (some sampleStored) "1"
        sampleBody).file "1" sampleBody).status = 200 ∧
    getField (putAssessmentHandler "2026-02-02"
      (putAssessmentHandler "2026-02-01" (some sampleStored) "1"
        sampleBody).file "1" sampleBody).body "createdDate" =
      getField (putAssessmentHandler "2026-02-01" (some sampleStored) "1"
        sampleBody).body "createdDate" ∧
    getField (putAssessmentHandler "2026-02-02"
      (putAssessmentHandler "2026-02-01" (some sampleStored) "1"
        sampleBody).file "1" sampleBody).body "status" =
      getField (putAssessmentHandler "2026-02-01" (some sampleStored) "1"
        sampleBody).body "status" ∧
    getField (putAssessmentHandler "2026-02-02"
      (putAssessmentHandler "2026-02-01" (some sampleStored) "1"
        sampleBody).file "1" sampleBody).body "lastModified" =
      some (JVal.str "2026-02-02") :=
  ⟨(put_idempotent_modulo_lastModified "2026-02-01" "2026-02-02"
      (some sampleStored) "1" sampleBody (by decide)).1,
   (put_idempotent_modulo_lastModified "2026-02-01" "2026-02-02"
      (some sampleStored) "1" sampleBody (by decide)).2.1 "createdDate"
      (by decide),
   (put_idempotent_modulo_lastModified "2026-02-01" "2026-02-02"
      (some sampleStored) "1" sampleBody (by decide)).2.1 "status"
      (by decide),
   (put_idempotent_modulo_lastModified "2026-02-01" "2026-02-02"
      (some sampleStored) "1" sampleBody (by decide)).2.2.1⟩

/-- Witness for the amended C7: the empty keyword keeps both concrete rows,
and on the first concrete row the filter agrees with the amended predicate
for the keyword calgary. -/
theorem filter_matches_normalized_joined_witness :
    ([calgaryRow1, calgaryRow2].filter (fun x => matchesKeyword x "") =
      [calgaryRow1, calgaryRow2]) ∧
    (matchesKeyword calgaryRow1 "calgary" = true ↔
      specKeepsRow calgaryRow1 "calgary") :=
  ⟨(filter_matches_normalized_joined [calgaryRow1, calgaryRow2] ""
      calgaryRow1).2.1 (by decide),
   (filter_matches_normalized_joined [calgaryRow1, calgaryRow2] "calgary"
      calgaryRow1).1⟩

/-- Witness for C8 on a concrete Approved record: its Edit button is
disabled, and rendering depends only on the status field. -/
theorem row_buttons_status_enablement_witness :
    ((true : Bool) = true ↔
      getField [("status", JVal.str "Approved")] "status" =
        some (JVal.str "Approved")) ∧
    renderRowButtons [("status", JVal.str "Approved")] =
      renderRowButtons [("processName", JVal.str "Zeta"),
        ("status", JVal.str "Approved")] :=
  ⟨(row_buttons_status_enablement [("status", JVal.str "Approved")]
      [("status", JVal.str "Approved")]).1 ⟨"edit", true⟩ (by decide) rfl,
   (row_buttons_status_enablement [("status", JVal.str "Approved")]
      [("processName", JVal.str "Zeta"),
       ("status", JVal.str "Approved")]).2.2.2.2 (by decide)⟩

/-- Witness for C9 at a concrete stored collection and body. -/
theorem mutations_frame_preservation_witness :
    ((postAssessmentsHandler "77" "2026-10-12" (some sampleStored)
        sampleBody).file =
      some (readJsonFile (some sampleStored) ++
        [(postAssessmentsHandler "77" "2026-10-12" (some sampleStored)
          sampleBody).body])) ∧
    (∃ l, (putAssessmentHandler "2026-10-12" (some sampleStored) "1"
        sampleBody).file = some l ∧
      l.length = (readJsonFile (some sampleStored)).length ∧
      ∀ (j : Nat) (rec : JObj),
        (readJsonFile (some sampleStored))[j]? = some rec →
        getField rec "id" ≠ some (JVal.str "1") → l[j]? = some rec) :=
  ⟨(mutations_frame_preservation "77" "2026-10-12" (some sampleStored)
      sampleBody "1").1 (by decide),
   (mutations_frame_preservation "77" "2026-10-12" (some sampleStored)
      sampleBody "1").2 (by decide)⟩

/-- Witness for C10 at a body that tries to smuggle its own id and dates. -/
theorem post_server_assigns_identity_fields_witness :
    getField (postAssessmentsHandler "99" "2026-10-12" (some sampleStored)
      [("processName", JVal.str "P"), ("status", JVal.str "Draft"),
       ("id", JVal.str "HACK"),
       ("createdDate", JVal.str "1999-01-01")]).body "id" =
      some (JVal.str "99") ∧
    getField (postAssessmentsHandler "99" "2026-10-12" (some sampleStored)
      [("processName", JVal.str "P"), ("status", JVal.str "Draft"),
       ("id", JVal.str "HACK"),
       ("createdDate", JVal.str "1999-01-01")]).body "createdDate" =
      some (JVal.str "2026-10-12") ∧
    getField (postAssessmentsHandler "99" "2026-10-12" (some sampleStored)
      [("processName", JVal.str "P"), ("status", JVal.str "Draft"),
       ("id", JVal.str "HACK"),
       ("createdDate", JVal.str "1999-01-01")]).body "lastModified" =
      some (JVal.str "2026-10-12") ∧
    ∃ l, (postAssessmentsHandler "99" "2026-10-12" (some sampleStored)
      [("processName", JVal.str "P"), ("status", JVal.str "Draft"),
       ("id", JVal.str "HACK"),
       ("createdDate", JVal.str "1999-01-01")]).file = some l ∧
      l.getLast? = some (postAssessmentsHandler "99" "2026-10-12"
        (some sampleStored)
        [("processName", JVal.str "P"), ("status", JVal.str "Draft"),
         ("id", JVal.str "HACK"),
         ("createdDate", JVal.str "1999-01-01")]).body :=
  post_server_assigns_identity_fields "99" "2026-10-12" (some sampleStored)
    [("processName", JVal.str "P"), ("status", JVal.str "Draft"),
     ("id", JVal.str "HACK"), ("createdDate", JVal.str "1999-01-01")]
    (by decide)

end RFIProj
